import Mathlib

/-!
Verification development for the `fallout-se` web editor front-end
(`crates/fallout_web/index.js`).  The JavaScript is shallowly embedded:
JS numbers that the relevant code paths can produce are modelled as
`JsNum` (an integer or NaN), strings as Lean `String`s, the decoded JSON
save model as `SaveJson`, the DOM form as `Form`, and the page-level
mutable state as `EditorState`.  The WASM engine (not part of the
JavaScript sources) is abstracted as function parameters.
-/

namespace FalloutSE

/-- A JavaScript number as produced by the editor's numeric code paths:
either an integer value or NaN.  (`parseInt` and the `|| default`
coercions used by `index.js` only ever produce integers or NaN; `-0` is
identified with `0`, which is faithful for the falsy test `|| d`.) -/
inductive JsNum where
  | int : ℤ → JsNum
  | nan : JsNum
deriving DecidableEq, Repr

/-- JS `v || d` for a number `v` and integer default `d`: NaN and 0 are
falsy and yield `d`; any other integer is returned unchanged.  This also
models `Number(x) || d` applied to an already-numeric `x`. -/
def numOrD (v : JsNum) (d : ℤ) : ℤ :=
  match v with
  | .nan => d
  | .int n => if n = 0 then d else n

/-- JS whitespace characters skipped by `parseInt` (ASCII subset; the
form strings of interest are ASCII). -/
def isJsWhitespace (c : Char) : Bool :=
  c == ' ' || c == '\t' || c == '\n' || c == '\r' || c == '\x0b' || c == '\x0c'

/-- Value of a (nonempty) leading run of decimal digits, most significant
first, as an exact integer.  (JS `parseInt` returns a double and can lose
precision on very long digit strings; the claims checked here only
concern NaN-ness and small values, for which the exact model agrees.) -/
def digitsValue (ds : List Char) : ℤ :=
  ds.foldl (fun a c => 10 * a + ((c.toNat : ℤ) - 48)) 0

/-- Parse a leading digit run (no sign, radix 10): NaN when there is no
leading digit, as in JS `parseInt`. -/
def jsParseIntFrom (l : List Char) : JsNum :=
  let ds := l.takeWhile Char.isDigit
  if ds.isEmpty then .nan else .int (digitsValue ds)

/-- JS `parseInt(s, 10)`: skip leading whitespace, accept one optional
sign, then read the maximal leading run of decimal digits; NaN when no
digit follows. -/
def jsParseInt (s : String) : JsNum :=
  match s.data.dropWhile isJsWhitespace with
  | '-' :: rest =>
    match jsParseIntFrom rest with
    | .nan => .nan
    | .int n => .int (-n)
  | '+' :: rest => jsParseIntFrom rest
  | l => jsParseIntFrom l

/-- `MAX_UPLOAD_BYTES` from `index.js`. -/
def MAX_UPLOAD_BYTES : ℕ := 16 * 1024 * 1024

/-- `GAME_TIME_TICKS_PER_YEAR` from `index.js`. -/
def GAME_TIME_TICKS_PER_YEAR : ℤ := 315360000

/-- `STAT_AGE_INDEX` from `index.js`. -/
def STAT_AGE_INDEX : ℤ := 33

/-- `elapsedGameYears(gameTime)` from `index.js`.  `Number(gameTime)` of
a JSON number is the number itself (NaN is not finite and takes the
guard branch); `Math.floor(parsed / GAME_TIME_TICKS_PER_YEAR)` is
modelled as exact integer floor division.  For every tick count
representable in the save format the double division followed by
`Math.floor` computes exactly this value; that exactness is proved in
theorem `c6_elapsed_years_exact_floor` below. -/
def elapsedGameYears (gameTime : JsNum) : ℤ :=
  match gameTime with
  | .nan => 0
  | .int n => if n ≤ 0 then 0 else n / GAME_TIME_TICKS_PER_YEAR

/-- Character class `[a-zA-Z0-9_-]` of `normalizeFilename`'s second
regex. -/
def isFilenameChar (c : Char) : Bool :=
  (decide ('a' ≤ c) && decide (c ≤ 'z')) || (decide ('A' ≤ c) && decide (c ≤ 'Z'))
    || (decide ('0' ≤ c) && decide (c ≤ '9')) || c == '_' || c == '-'

/-- `value.replace(/\.[^\/.]+$/, "")`: strip a final extension, i.e. a
trailing `'.'` followed by one or more characters none of which is `'.'`
or `'/'`.  Implemented from the reversed character list: the candidate
extension body is the maximal dot-free slash-free suffix. -/
def stripExt (s : List Char) : List Char :=
  let r := s.reverse
  let t := r.takeWhile (fun c => !(c == '.' || c == '/'))
  if t.isEmpty then s
  else
    match r.drop t.length with
    | '.' :: rest => rest.reverse
    | _ => s

/-- One step of `replace(/[^a-zA-Z0-9_-]+/g, "_")`: the boolean records
whether we are inside a run of rejected characters (whose first
character already emitted the single `'_'`). -/
def collapseBadAux : Bool → List Char → List Char
  | _, [] => []
  | inRun, c :: rest =>
    if isFilenameChar c then c :: collapseBadAux false rest
    else if inRun then collapseBadAux true rest
    else '_' :: collapseBadAux true rest

/-- `replace(/[^a-zA-Z0-9_-]+/g, "_")`: every maximal run of characters
outside `[a-zA-Z0-9_-]` becomes a single underscore. -/
def collapseBad (l : List Char) : List Char :=
  collapseBadAux false l

/-- `normalizeFilename` from `index.js`, on character lists. -/
def normalizeFilenameCore (l : List Char) : List Char :=
  let cleaned := collapseBad (stripExt l)
  if cleaned.isEmpty then ['s', 'a', 'v', 'e'] else cleaned

/-- `normalizeFilename(value)` from `index.js`: strip the final
extension, collapse runs of characters outside `[a-zA-Z0-9_-]` to single
underscores, and fall back to `"save"` when the result is empty. -/
def normalizeFilename (value : String) : String :=
  ⟨normalizeFilenameCore value.data⟩

/-- `TRAIT_NAMES` from `index.js`. -/
def TRAIT_NAMES : List String :=
  ["Fast Metabolism", "Bruiser", "Small Frame", "One Hander",
   "Finesse", "Kamikaze", "Heavy Handed", "Fast Shot",
   "Bloody Mess", "Jinxed", "Good Natured", "Chem Reliant",
   "Chem Resistant", "Night Person", "Skilled", "Gifted"]

/-- `F1_PERK_NAMES` from `index.js`. -/
def F1_PERK_NAMES : List String :=
  ["Awareness", "Bonus HtH Attacks", "Bonus HtH Damage", "Bonus Move",
   "Bonus Ranged Damage", "Bonus Rate of Fire", "Earlier Sequence", "Faster Healing",
   "More Criticals", "Night Vision", "Presence", "Rad Resistance",
   "Toughness", "Strong Back", "Sharpshooter", "Silent Running",
   "Survivalist", "Master Trader", "Educated", "Healer",
   "Fortune Finder", "Better Criticals", "Empathy", "Slayer",
   "Sniper", "Silent Death", "Action Boy", "Mental Block",
   "Lifegiver", "Dodger", "Snakeater", "Mr. Fixit",
   "Medic", "Master Thief", "Speaker", "Heave Ho!",
   "Friendly Foe", "Pickpocket", "Ghost", "Cult of Personality",
   "Scrounger", "Explorer", "Flower Child", "Pathfinder",
   "Animal Friend", "Scout", "Mysterious Stranger", "Ranger",
   "Quick Pockets", "Smooth Talker", "Swift Learner", "Tag!",
   "Mutate!", "Nuka-Cola Addiction", "Buffout Addiction", "Mentats Addiction",
   "Psycho Addiction", "Radaway Addiction", "Weapon Long Range", "Weapon Accurate",
   "Weapon Penetrate", "Weapon Knockback", "Powered Armor", "Combat Armor"]

/-- `titleCase` helper from `index.js`: the boolean records whether the
previous character was the string start or whitespace (the positions
where the regex `/(?:^|\s)\S/g` uppercases). -/
def titleCaseAux : Bool → List Char → List Char
  | _, [] => []
  | afterSpace, c :: rest =>
    if isJsWhitespace c then c :: titleCaseAux true rest
    else (if afterSpace then c.toUpper else c) :: titleCaseAux false rest

/-- `titleCase(s)` from `index.js`: lower-case everything, then
upper-case each non-space character at the start or after whitespace. -/
def titleCase (s : String) : String :=
  ⟨titleCaseAux true (s.data.map Char.toLower)⟩

/-- `F2_PERK_NAMES_RAW` from `index.js`. -/
def F2_PERK_NAMES_RAW : List String :=
  ["AWARENESS", "BONUS HTH ATTACKS", "BONUS HTH DAMAGE", "BONUS MOVE",
   "BONUS RANGED DAMAGE", "BONUS RATE OF FIRE", "EARLIER SEQUENCE", "FASTER HEALING",
   "MORE CRITICALS", "NIGHT VISION", "PRESENCE", "RAD RESISTANCE",
   "TOUGHNESS", "STRONG BACK", "SHARPSHOOTER", "SILENT RUNNING",
   "SURVIVALIST", "MASTER TRADER", "EDUCATED", "HEALER",
   "FORTUNE FINDER", "BETTER CRITICALS", "EMPATHY", "SLAYER",
   "SNIPER", "SILENT DEATH", "ACTION BOY", "MENTAL BLOCK",
   "LIFEGIVER", "DODGER", "SNAKEATER", "MR FIXIT",
   "MEDIC", "MASTER THIEF", "SPEAKER", "HEAVE HO",
   "FRIENDLY FOE", "PICKPOCKET", "GHOST", "CULT OF PERSONALITY",
   "SCROUNGER", "EXPLORER", "FLOWER CHILD", "PATHFINDER",
   "ANIMAL FRIEND", "SCOUT", "MYSTERIOUS STRANGER", "RANGER",
   "QUICK POCKETS", "SMOOTH TALKER", "SWIFT LEARNER", "TAG",
   "MUTATE", "NUKA COLA ADDICTION", "BUFFOUT ADDICTION", "MENTATS ADDICTION",
   "PSYCHO ADDICTION", "RADAWAY ADDICTION", "WEAPON LONG RANGE", "WEAPON ACCURATE",
   "WEAPON PENETRATE", "WEAPON KNOCKBACK", "POWERED ARMOR", "COMBAT ARMOR",
   "WEAPON SCOPE RANGE", "WEAPON FAST RELOAD", "WEAPON NIGHT SIGHT", "WEAPON FLAMEBOY",
   "ARMOR ADVANCED I", "ARMOR ADVANCED II", "JET ADDICTION", "TRAGIC ADDICTION",
   "ARMOR CHARISMA", "GECKO SKINNING", "DERMAL IMPACT ARMOR",
   "DERMAL IMPACT ASSAULT ENHANCEMENT", "PHOENIX ARMOR IMPLANTS",
   "PHOENIX ASSAULT ENHANCEMENT", "VAULT CITY INOCULATIONS",
   "ADRENALINE RUSH", "CAUTIOUS NATURE", "COMPREHENSION", "DEMOLITION EXPERT",
   "GAMBLER", "GAIN STRENGTH", "GAIN PERCEPTION", "GAIN ENDURANCE",
   "GAIN CHARISMA", "GAIN INTELLIGENCE", "GAIN AGILITY", "GAIN LUCK",
   "HARMLESS", "HERE AND NOW", "HTH EVADE", "KAMA SUTRA MASTER",
   "KARMA BEACON", "LIGHT STEP", "LIVING ANATOMY", "MAGNETIC PERSONALITY",
   "NEGOTIATOR", "PACK RAT", "PYROMANIAC", "QUICK RECOVERY",
   "SALESMAN", "STONEWALL", "THIEF", "WEAPON HANDLING",
   "VAULT CITY TRAINING", "ALCOHOL RAISED HIT POINTS", "ALCOHOL RAISED HIT POINTS II",
   "ALCOHOL LOWERED HIT POINTS", "ALCOHOL LOWERED HIT POINTS II",
   "AUTODOC RAISED HIT POINTS", "AUTODOC RAISED HIT POINTS II",
   "AUTODOC LOWERED HIT POINTS", "AUTODOC LOWERED HIT POINTS II",
   "EXPERT EXCREMENT EXPEDITOR", "WEAPON ENHANCED KNOCKOUT", "JINXED"]

/-- `F2_PERK_NAMES` from `index.js`. -/
def F2_PERK_NAMES : List String :=
  F2_PERK_NAMES_RAW.map titleCase

/-! ## The decoded JSON save model and the edit form -/

/-- One entry of `json.stats` (derived stats, among them the age stat at
index `STAT_AGE_INDEX`). -/
structure StatEntry where
  index : JsNum
  base : JsNum
  bonus : JsNum
  total : JsNum
deriving DecidableEq, Repr

/-- One entry of `json.special` (S.P.E.C.I.A.L. attribute). -/
structure SpecialEntry where
  base : JsNum
  bonus : JsNum
  total : JsNum
deriving DecidableEq, Repr

/-- One entry of `json.traits`. -/
structure TraitEntry where
  index : JsNum
  name : String
deriving DecidableEq, Repr

/-- One entry of `json.perks`. -/
structure PerkEntry where
  index : JsNum
  name : String
  rank : JsNum
deriving DecidableEq, Repr

/-- One entry of `json.skills`.  Only `index` and `raw` are written by
the form sync; the derived fields are carried through unchanged. -/
structure SkillEntry where
  index : JsNum
  name : String
  raw : JsNum
  tag_bonus : JsNum
  bonus : JsNum
  total : JsNum
deriving DecidableEq, Repr

/-- One entry of `json.inventory`. -/
structure InvEntry where
  quantity : JsNum
  pid : JsNum
deriving DecidableEq, Repr

/-- The decoded save projected to JSON (`state.currentJson`), restricted
to the fields `syncFormToJson` reads or writes. -/
structure SaveJson where
  game : String
  name : String
  description : String
  gender : String
  level : JsNum
  xp : JsNum
  skill_points : JsNum
  hp : JsNum
  karma : JsNum
  reputation : JsNum
  game_time : JsNum
  special : List SpecialEntry
  stats : List StatEntry
  traits : List TraitEntry
  perks : List PerkEntry
  skills : List SkillEntry
  inventory : List InvEntry
deriving DecidableEq, Repr

/-- A `.special-base` input: its `data-index` attribute string and its
current value string. -/
structure SpecialInput where
  index : String
  value : String
deriving DecidableEq, Repr

/-- A `.skill-raw` input: its `data-index` attribute string and its
current value string. -/
structure SkillInput where
  index : String
  value : String
deriving DecidableEq, Repr

/-- A perk row: the `.perk-name` select's value string and the
`.perk-rank` input's value string. -/
structure PerkRow where
  nameSel : String
  rank : String
deriving DecidableEq, Repr

/-- An inventory row: the `.inv-quantity` and `.inv-pid` input value
strings. -/
structure InvRow where
  quantity : String
  pid : String
deriving DecidableEq, Repr

/-- The form-editor DOM state read by `syncFormToJson`. -/
structure Form where
  name : String
  description : String
  gender : String
  level : String
  xp : String
  skillPoints : String
  hp : String
  karma : String
  reputation : String
  baseAge : String
  trait0 : String
  trait1 : String
  specialInputs : List SpecialInput
  skillInputs : List SkillInput
  perkRows : List PerkRow
  invRows : List InvRow
deriving DecidableEq, Repr

/-! ## Pure helpers of `index.js` -/

/-- `findAgeStat(stats)` from `index.js`: the first entry whose `index`
is strictly equal to `STAT_AGE_INDEX`. -/
def findAgeStat (stats : List StatEntry) : Option StatEntry :=
  stats.find? (fun s => s.index == JsNum.int STAT_AGE_INDEX)

/-- `baseAgeFromJson(json)` from `index.js`; the JS function returns the
empty string when no age stat exists, modelled as `none`. -/
def baseAgeFromJson (json : SaveJson) : Option ℤ :=
  match findAgeStat json.stats with
  | none => none
  | some ageStat =>
    some (numOrD ageStat.total 0 - numOrD ageStat.bonus 0 - elapsedGameYears json.game_time)

/-- JS `Array.prototype.indexOf` on a string array, accumulating the
position and returning `-1` when absent. -/
def jsIndexOfFrom (v : String) : List String → ℤ → ℤ
  | [], _ => -1
  | x :: rest, acc => if x = v then acc else jsIndexOfFrom v rest (acc + 1)

/-- `TRAIT_NAMES.indexOf(name)`-style lookup. -/
def jsIndexOf (l : List String) (v : String) : ℤ :=
  jsIndexOfFrom v l 0

/-- `readTraitFromSelect(selectEl)` from `index.js`, as a function of the
select's value string. -/
def readTraitFromSelect (v : String) : Option TraitEntry :=
  if v = "" then none
  else
    let idx := jsIndexOf TRAIT_NAMES v
    if idx < 0 then none else some { index := JsNum.int idx, name := v }

/-- In-place mutation of the first list element satisfying `p` (the
effect of `find` followed by assignment through the returned
reference). -/
def modifyFirst (p : α → Bool) (f : α → α) : List α → List α
  | [] => []
  | a :: l => if p a then f a :: l else a :: modifyFirst p f l

/-- `getPerkNamesForGame()` from `index.js`, as a function of the
current JSON's `game` field. -/
def perkNamesForGame (json : SaveJson) : List String :=
  if json.game = "Fallout2" then F2_PERK_NAMES else F1_PERK_NAMES

/-- `perkNames[index]` with the template-string fallback
`` `Perk #${index}` `` used by `syncFormToJson`. -/
def perkNameFor (names : List String) (idx : JsNum) : String :=
  match idx with
  | .int i =>
    if h : 0 ≤ i ∧ i.toNat < names.length then names.get ⟨i.toNat, h.2⟩
    else "Perk #" ++ toString i
  | .nan => "Perk #NaN"

/-! ## `syncFormToJson`, block by block -/

/-- The age block of `syncFormToJson`: when an age stat exists, set its
`base` to the parsed form value (default 0) and recompute its `total`
as base + bonus + elapsed game years. -/
def applyAgeEdit (baseAgeStr : String) (gameTime : JsNum) (stats : List StatEntry) :
    List StatEntry :=
  modifyFirst (fun s => s.index == JsNum.int STAT_AGE_INDEX)
    (fun ageStat =>
      let baseAge := numOrD (jsParseInt baseAgeStr) 0
      let ageBonus := numOrD ageStat.bonus 0
      { ageStat with
          base := .int baseAge
          total := .int (baseAge + ageBonus + elapsedGameYears gameTime) })
    stats

/-- Replace the `base` of the entry at position `i` when it exists (JS
`if (json.special[i]) { ... }`). -/
def setBaseAt (l : List SpecialEntry) (i : ℕ) (b : JsNum) : List SpecialEntry :=
  match l[i]? with
  | none => l
  | some e => l.set i { e with base := b }

/-- One `.special-base` input of the S.P.E.C.I.A.L. block of
`syncFormToJson`: parse the `data-index`, and when it addresses an
existing entry set that entry's `base` to the parsed value (default
1). -/
def applySpecialInput (sp : List SpecialEntry) (inp : SpecialInput) : List SpecialEntry :=
  match jsParseInt inp.index with
  | .nan => sp
  | .int i =>
    if i < 0 then sp
    else setBaseAt sp i.toNat (.int (numOrD (jsParseInt inp.value) 1))

/-- One `.skill-raw` input of the skills block of `syncFormToJson`: the
first skill whose `index` strictly equals the parsed `data-index` gets
its `raw` set to the parsed value (default 0). -/
def applySkillInput (sk : List SkillEntry) (inp : SkillInput) : List SkillEntry :=
  match jsParseInt inp.index with
  | .nan => sk
  | .int i =>
    modifyFirst (fun s => s.index == JsNum.int i)
      (fun s => { s with raw := .int (numOrD (jsParseInt inp.value) 0) }) sk

/-- The traits block of `syncFormToJson`: an empty list, with the
results of `readTraitFromSelect` for each of the two selects pushed when
non-null. -/
def syncTraits (t0 t1 : String) : List TraitEntry :=
  (match readTraitFromSelect t0 with | some t => [t] | none => []) ++
  (match readTraitFromSelect t1 with | some t => [t] | none => [])

/-- One perk row of the perks block of `syncFormToJson`: index parsed
from the select value (no fallback), rank parsed with default 1, name
looked up with the `Perk #` fallback. -/
def mkPerkEntry (names : List String) (row : PerkRow) : PerkEntry :=
  let index := jsParseInt row.nameSel
  let rank := numOrD (jsParseInt row.rank) 1
  { index := index, name := perkNameFor names index, rank := .int rank }

/-- One inventory row of the inventory block of `syncFormToJson`:
quantity parsed with default 1, pid parsed with default 0. -/
def mkInvEntry (row : InvRow) : InvEntry :=
  { quantity := .int (numOrD (jsParseInt row.quantity) 1)
    pid := .int (numOrD (jsParseInt row.pid) 0) }

/-- `syncFormToJson` from `index.js`, as a function from the form state
and the current JSON to the updated JSON.  (The function's re-entrancy
guard on `state.syncDirection` and its early return when
`state.currentJson` is null only gate whether it runs at all; the JSON
serialization into the textarea is not part of the model.) -/
def syncFormToJson (form : Form) (json : SaveJson) : SaveJson :=
  { json with
      name := form.name
      description := form.description
      gender := form.gender
      level := .int (numOrD (jsParseInt form.level) 0)
      xp := .int (numOrD (jsParseInt form.xp) 0)
      skill_points := .int (numOrD (jsParseInt form.skillPoints) 0)
      hp := .int (numOrD (jsParseInt form.hp) 0)
      karma := .int (numOrD (jsParseInt form.karma) 0)
      reputation := .int (numOrD (jsParseInt form.reputation) 0)
      stats := applyAgeEdit form.baseAge json.game_time json.stats
      special := form.specialInputs.foldl applySpecialInput json.special
      traits := syncTraits form.trait0 form.trait1
      perks := form.perkRows.map (mkPerkEntry (perkNamesForGame json))
      skills := form.skillInputs.foldl applySkillInput json.skills
      inventory := form.invRows.map mkInvEntry }

/-- The add-perk button handler (`wireFormEvents`): `addPerkRow(names,
0, 1)` appends a row whose select value is `String(0)` and whose rank
input value is `1`, then `syncFormToJson` runs.  This models the form
change. -/
def addPerkClickForm (form : Form) : Form :=
  { form with perkRows := form.perkRows ++ [{ nameSel := "0", rank := "1" }] }

/-- The add-inventory button handler (`wireFormEvents`):
`addInventoryRow(1, 0)` appends a row with quantity input `1` and pid
input `0`, then `syncFormToJson` runs.  This models the form change. -/
def addInventoryClickForm (form : Form) : Form :=
  { form with invRows := form.invRows ++ [{ quantity := "1", pid := "0" }] }

/-! ## The page-level editor state machine -/

/-- A dropped/selected browser file: for a `File`, `size` equals the
byte length of its contents. -/
structure JsFile where
  name : String
  bytes : List ℕ
deriving DecidableEq, Repr

/-- `file.size`. -/
def JsFile.size (f : JsFile) : ℕ := f.bytes.length

/-- The `state` object of the editor page together with the
enabled/disabled flags of the buttons and the status line — everything
`resetEditor`, `loadSaveFile`, `applyJsonAndBuildSave` and
`downloadEditedSave` read or write. -/
structure EditorState where
  originalBytes : Option (List ℕ)
  updatedBytes : Option (List ℕ)
  filenameBase : String
  outputFilename : String
  ready : Bool
  initError : Option String
  currentJson : Option SaveJson
  jsonText : String
  copyEnabled : Bool
  formatEnabled : Bool
  applyEnabled : Bool
  downloadEnabled : Bool
  formVisible : Bool
  status : String
  statusKind : String
deriving Repr

/-- `setStatus(message, kind)` from `index.js`. -/
def setStatus (st : EditorState) (msg kind : String) : EditorState :=
  { st with status := msg, statusKind := kind }

/-- `resetEditor()` from `index.js`: clear the byte buffers, filenames,
current JSON and textarea, disable all edit/apply/download actions and
hide the form. -/
def resetEditor (st : EditorState) : EditorState :=
  { st with
      originalBytes := none
      updatedBytes := none
      filenameBase := "save"
      outputFilename := "SAVE_edited.DAT"
      currentJson := none
      jsonText := ""
      copyEnabled := false
      formatEnabled := false
      applyEnabled := false
      downloadEnabled := false
      formVisible := false }

/-- `loadSaveFile(file)` from `index.js`.  The WASM decode
(`export_save_json` followed by `JSON.parse`) is abstracted as the
`decode` parameter, returning the rendered JSON text and the parsed
model or failing; a failure anywhere in the `try` block lands in the
`catch`, which resets the editor and reports the error.  The returned
boolean records whether the WASM decode was invoked. -/
def loadSaveFile (decode : List ℕ → Except String (String × SaveJson))
    (st : EditorState) (file : Option JsFile) : EditorState × Bool :=
  match st.initError with
  | some e => (setStatus st ("WASM failed to load: " ++ e) "error", false)
  | none =>
    if st.ready = false then
      (setStatus st "WASM engine is still loading..." "info", false)
    else
      match file with
      | none => (setStatus st "No file selected." "error", false)
      | some f =>
        if f.size > MAX_UPLOAD_BYTES then
          (setStatus (resetEditor st)
            "File is too large. Maximum supported size is 16 MiB." "error", false)
        else
          match decode f.bytes with
          | .error e => (setStatus (resetEditor st) e "error", true)
          | .ok (renderedJson, parsed) =>
            ({ st with
                originalBytes := some f.bytes
                updatedBytes := none
                filenameBase := normalizeFilename f.name
                outputFilename := normalizeFilename f.name ++ "_edited.SAVE.DAT"
                jsonText := renderedJson
                copyEnabled := true
                formatEnabled := true
                applyEnabled := true
                downloadEnabled := false
                currentJson := some parsed
                formVisible := true
                status := "Loaded " ++ f.name ++ ". Edit fields or JSON and apply when ready."
                statusKind := "ok" }, true)

/-- The value returned by the WASM `apply_json_to_save`, as inspected by
`parseApplyPayload`: `updated_bytes` is `some` exactly when
`coerceUint8Array` succeeds on it, and `filename_hint` is `some` exactly
when the field is a string. -/
structure ApplyPayload where
  updated_bytes : Option (List ℕ)
  filename_hint : Option String
deriving DecidableEq, Repr

/-- `parseApplyPayload(payload)` from `index.js`; `none` models a
payload that is not an object.  Throws are modelled as `Except.error`
with the thrown message. -/
def parseApplyPayload (filenameBase : String) (payload : Option ApplyPayload) :
    Except String (List ℕ × String) :=
  match payload with
  | none => .error "Invalid apply response from wasm."
  | some p =>
    match p.updated_bytes with
    | none => .error "Apply response did not include updated save bytes."
    | some bs =>
      if bs.length = 0 then .error "Apply response did not include updated save bytes."
      else
        let filenameHint :=
          match p.filename_hint with
          | some h => if h.length > 0 then h else filenameBase ++ "_edited.SAVE.DAT"
          | none => filenameBase ++ "_edited.SAVE.DAT"
        .ok (bs, filenameHint)

/-- `applyJsonAndBuildSave()` from `index.js`.  The WASM
`apply_json_to_save` is abstracted as `applyFn` (its `Except.error`
models a thrown exception, and the `Option ApplyPayload` its returned
value); both a throw from the WASM call and a throw from
`parseApplyPayload` land in the `catch`, which clears `updatedBytes` and
disables download. -/
def applyJsonAndBuildSave
    (applyFn : List ℕ → String → Except String (Option ApplyPayload))
    (st : EditorState) : EditorState :=
  match st.originalBytes with
  | none => setStatus st "Load a SAVE.DAT before applying JSON edits." "error"
  | some ob =>
    if ob.length = 0 then
      setStatus st "Load a SAVE.DAT before applying JSON edits." "error"
    else
      let editedJson := st.jsonText.trim
      if editedJson = "" then setStatus st "Editor JSON is empty." "error"
      else
        match applyFn ob editedJson with
        | .error e =>
          setStatus { st with updatedBytes := none, downloadEnabled := false } e "error"
        | .ok payload =>
          match parseApplyPayload st.filenameBase payload with
          | .error e =>
            setStatus { st with updatedBytes := none, downloadEnabled := false } e "error"
          | .ok (bs, filenameHint) =>
            setStatus
              { st with
                  updatedBytes := some bs
                  outputFilename := filenameHint
                  downloadEnabled := true }
              ("Applied JSON edits. Ready to download " ++ filenameHint ++ ".") "ok"

/-- `downloadEditedSave()` from `index.js`: the bytes and filename
handed to the download anchor, or `none` when the function returns
without doing anything. -/
def downloadEditedSave (st : EditorState) : Option (List ℕ × String) :=
  match st.updatedBytes with
  | none => none
  | some bs => if bs.length = 0 then none else some (bs, st.outputFilename)

/-- The download-state invariant of claim C9: the download action is
enabled only when `updatedBytes` is a non-empty buffer. -/
def downloadInv (st : EditorState) : Prop :=
  st.downloadEnabled = true → ∃ bs, st.updatedBytes = some bs ∧ bs.length ≠ 0

/-! ## Helper lemmas -/

theorem numOrD_int_zero (x : ℤ) : numOrD (.int x) 0 = x := by
  by_cases h : x = 0 <;> simp [numOrD, h]

theorem modifyFirst_find? {α} (p : α → Bool) (f : α → α)
    (hp : ∀ a, p a = true → p (f a) = true) :
    ∀ (l : List α) (a : α), l.find? p = some a →
      (modifyFirst p f l).find? p = some (f a) := by
  intro l
  induction l with
  | nil => intro a h; simp [List.find?] at h
  | cons x xs ih =>
    intro a h
    by_cases hx : p x = true
    · rw [List.find?_cons_of_pos _ hx] at h
      cases h
      simp only [modifyFirst, if_pos hx]
      exact List.find?_cons_of_pos _ (hp _ hx)
    · rw [List.find?_cons_of_neg _ hx] at h
      simp only [modifyFirst, if_neg hx]
      rw [List.find?_cons_of_neg _ hx]
      exact ih a h

theorem modifyFirst_of_find?_none {α} (p : α → Bool) (f : α → α) :
    ∀ l : List α, l.find? p = none → modifyFirst p f l = l := by
  intro l
  induction l with
  | nil => intro _; rfl
  | cons x xs ih =>
    intro h
    by_cases hx : p x = true
    · rw [List.find?_cons_of_pos _ hx] at h; cases h
    · rw [List.find?_cons_of_neg _ hx] at h
      simp only [modifyFirst, if_neg hx, ih h]

theorem mem_modifyFirst {α} (p : α → Bool) (f : α → α) :
    ∀ (l : List α) (b : α), b ∈ modifyFirst p f l → b ∈ l ∨ ∃ a, a ∈ l ∧ b = f a := by
  intro l
  induction l with
  | nil => intro b h; simp [modifyFirst] at h
  | cons x xs ih =>
    intro b h
    simp only [modifyFirst] at h
    by_cases hx : p x = true
    · rw [if_pos hx] at h
      rcases List.mem_cons.mp h with h | h
      · exact Or.inr ⟨x, List.mem_cons_self x xs, h⟩
      · exact Or.inl (List.mem_cons_of_mem x h)
    · rw [if_neg hx] at h
      rcases List.mem_cons.mp h with h | h
      · exact Or.inl (by simp [h])
      · rcases ih b h with h' | ⟨a, ha, hb⟩
        · exact Or.inl (List.mem_cons_of_mem x h')
        · exact Or.inr ⟨a, List.mem_cons_of_mem x ha, hb⟩

theorem setBaseAt_getElem?_bonus (l : List SpecialEntry) (i j : ℕ) (b : JsNum) :
    ((setBaseAt l i b)[j]?).map SpecialEntry.bonus = (l[j]?).map SpecialEntry.bonus := by
  unfold setBaseAt
  cases h : l[i]? with
  | none => rfl
  | some e =>
    by_cases hij : i = j
    · subst hij
      have hi : i < l.length := (List.getElem?_eq_some.mp h).1
      rw [List.getElem?_set_self (by simpa using hi), h]
      rfl
    · rw [List.getElem?_set_ne hij]

theorem setBaseAt_getElem?_total (l : List SpecialEntry) (i j : ℕ) (b : JsNum) :
    ((setBaseAt l i b)[j]?).map SpecialEntry.total = (l[j]?).map SpecialEntry.total := by
  unfold setBaseAt
  cases h : l[i]? with
  | none => rfl
  | some e =>
    by_cases hij : i = j
    · subst hij
      have hi : i < l.length := (List.getElem?_eq_some.mp h).1
      rw [List.getElem?_set_self (by simpa using hi), h]
      rfl
    · rw [List.getElem?_set_ne hij]

theorem applySpecialInput_getElem?_bonus (sp : List SpecialEntry) (inp : SpecialInput) (j : ℕ) :
    ((applySpecialInput sp inp)[j]?).map SpecialEntry.bonus
      = (sp[j]?).map SpecialEntry.bonus := by
  unfold applySpecialInput
  cases jsParseInt inp.index with
  | nan => rfl
  | int i =>
    dsimp only
    by_cases hi : i < 0
    · rw [if_pos hi]
    · rw [if_neg hi, setBaseAt_getElem?_bonus]

theorem applySpecialInput_getElem?_total (sp : List SpecialEntry) (inp : SpecialInput) (j : ℕ) :
    ((applySpecialInput sp inp)[j]?).map SpecialEntry.total
      = (sp[j]?).map SpecialEntry.total := by
  unfold applySpecialInput
  cases jsParseInt inp.index with
  | nan => rfl
  | int i =>
    dsimp only
    by_cases hi : i < 0
    · rw [if_pos hi]
    · rw [if_neg hi, setBaseAt_getElem?_total]

theorem foldl_applySpecialInput_getElem?_bonus (inputs : List SpecialInput) :
    ∀ (sp : List SpecialEntry) (j : ℕ),
      ((inputs.foldl applySpecialInput sp)[j]?).map SpecialEntry.bonus
        = (sp[j]?).map SpecialEntry.bonus := by
  induction inputs with
  | nil => intro sp j; rfl
  | cons inp rest ih =>
    intro sp j
    rw [List.foldl_cons, ih (applySpecialInput sp inp) j, applySpecialInput_getElem?_bonus]

theorem foldl_applySpecialInput_getElem?_total (inputs : List SpecialInput) :
    ∀ (sp : List SpecialEntry) (j : ℕ),
      ((inputs.foldl applySpecialInput sp)[j]?).map SpecialEntry.total
        = (sp[j]?).map SpecialEntry.total := by
  induction inputs with
  | nil => intro sp j; rfl
  | cons inp rest ih =>
    intro sp j
    rw [List.foldl_cons, ih (applySpecialInput sp inp) j, applySpecialInput_getElem?_total]

theorem mem_setBaseAt (l : List SpecialEntry) (i : ℕ) (b : JsNum) :
    ∀ e ∈ setBaseAt l i b, e ∈ l ∨ e.base = b := by
  intro e
  unfold setBaseAt
  cases h : l[i]? with
  | none => intro he; exact Or.inl he
  | some x =>
    intro he
    rcases List.mem_or_eq_of_mem_set he with h' | h'
    · exact Or.inl h'
    · subst h'; exact Or.inr rfl

theorem mem_applySpecialInput_base (sp : List SpecialEntry) (inp : SpecialInput) :
    ∀ e ∈ applySpecialInput sp inp, e ∈ sp ∨ e.base ≠ JsNum.nan := by
  intro e
  unfold applySpecialInput
  cases jsParseInt inp.index with
  | nan => intro he; exact Or.inl he
  | int i =>
    dsimp only
    by_cases hi : i < 0
    · rw [if_pos hi]; intro he; exact Or.inl he
    · rw [if_neg hi]; intro he
      rcases mem_setBaseAt _ _ _ e he with h | h
      · exact Or.inl h
      · exact Or.inr (by simp [h])

theorem foldl_applySpecialInput_base_notNan (inputs : List SpecialInput) :
    ∀ sp : List SpecialEntry, (∀ e ∈ sp, e.base ≠ JsNum.nan) →
      ∀ e ∈ inputs.foldl applySpecialInput sp, e.base ≠ JsNum.nan := by
  induction inputs with
  | nil => intro sp hsp e he; exact hsp e he
  | cons inp rest ih =>
    intro sp hsp e he
    refine ih (applySpecialInput sp inp) ?_ e he
    intro e' he'
    rcases mem_applySpecialInput_base sp inp e' he' with h | h
    · exact hsp e' h
    · exact h

theorem mem_applySkillInput_raw (sk : List SkillEntry) (inp : SkillInput) :
    ∀ s ∈ applySkillInput sk inp, s ∈ sk ∨ s.raw ≠ JsNum.nan := by
  intro s
  unfold applySkillInput
  cases jsParseInt inp.index with
  | nan => intro hs; exact Or.inl hs
  | int i =>
    intro hs
    rcases mem_modifyFirst _ _ _ _ hs with h | ⟨a, _, hb⟩
    · exact Or.inl h
    · subst hb; exact Or.inr (by simp)

theorem foldl_applySkillInput_raw_notNan (inputs : List SkillInput) :
    ∀ sk : List SkillEntry, (∀ s ∈ sk, s.raw ≠ JsNum.nan) →
      ∀ s ∈ inputs.foldl applySkillInput sk, s.raw ≠ JsNum.nan := by
  induction inputs with
  | nil => intro sk hsk s hs; exact hsk s hs
  | cons inp rest ih =>
    intro sk hsk s hs
    refine ih (applySkillInput sk inp) ?_ s hs
    intro s' hs'
    rcases mem_applySkillInput_raw sk inp s' hs' with h | h
    · exact hsk s' h
    · exact h

theorem mem_collapseBadAux :
    ∀ (l : List Char) (flag : Bool) (c : Char),
      c ∈ collapseBadAux flag l → isFilenameChar c = true := by
  intro l
  induction l with
  | nil => intro flag c h; simp [collapseBadAux] at h
  | cons x xs ih =>
    intro flag c h
    simp only [collapseBadAux] at h
    by_cases hx : isFilenameChar x = true
    · rw [if_pos hx] at h
      rcases List.mem_cons.mp h with h | h
      · subst h; exact hx
      · exact ih false c h
    · rw [if_neg hx] at h
      cases flag with
      | true => exact ih true c (by simpa using h)
      | false =>
        rcases List.mem_cons.mp (by simpa using h) with h' | h'
        · subst h'; decide
        · exact ih true c h'

theorem normalizeFilenameCore_ne_nil (l : List Char) : normalizeFilenameCore l ≠ [] := by
  simp only [normalizeFilenameCore]
  by_cases h : (collapseBad (stripExt l)).isEmpty = true
  · rw [if_pos h]; simp
  · rw [if_neg h]
    simpa [List.isEmpty_iff] using h

theorem mem_normalizeFilenameCore (l : List Char) :
    ∀ c ∈ normalizeFilenameCore l, isFilenameChar c = true := by
  intro c hc
  simp only [normalizeFilenameCore] at hc
  by_cases h : (collapseBad (stripExt l)).isEmpty = true
  · rw [if_pos h] at hc
    simp at hc
    rcases hc with h' | h' | h' | h' <;> subst h' <;> decide
  · rw [if_neg h] at hc
    exact mem_collapseBadAux (stripExt l) false c hc

theorem jsIndexOfFrom_not_mem (v : String) :
    ∀ (l : List String) (acc : ℤ), v ∉ l → jsIndexOfFrom v l acc = -1 := by
  intro l
  induction l with
  | nil => intro acc _; rfl
  | cons x xs ih =>
    intro acc hv
    have hx : x ≠ v := fun h => hv (by simp [h])
    simp only [jsIndexOfFrom, if_neg hx]
    exact ih (acc + 1) (fun h => hv (List.mem_cons_of_mem x h))

theorem jsIndexOfFrom_spec (v : String) :
    ∀ (l : List String) (acc : ℤ),
      jsIndexOfFrom v l acc = -1 ∨
        ∃ k : ℕ, jsIndexOfFrom v l acc = acc + k ∧ l.get? k = some v := by
  intro l
  induction l with
  | nil => intro acc; exact Or.inl rfl
  | cons x xs ih =>
    intro acc
    by_cases hx : x = v
    · exact Or.inr ⟨0, by simp [jsIndexOfFrom, hx]⟩
    · simp only [jsIndexOfFrom, if_neg hx]
      rcases ih (acc + 1) with h | ⟨k, hk, hget⟩
      · exact Or.inl h
      · exact Or.inr ⟨k + 1, by push_cast at hk ⊢; omega, by simpa using hget⟩

theorem readTraitFromSelect_spec (v : String) (t : TraitEntry) :
    readTraitFromSelect v = some t →
      ∃ k : ℕ, t.index = JsNum.int k ∧ TRAIT_NAMES.get? k = some v ∧ t.name = v := by
  intro h
  unfold readTraitFromSelect at h
  by_cases hv : v = ""
  · simp [hv] at h
  · rw [if_neg hv] at h
    by_cases hneg : jsIndexOf TRAIT_NAMES v < 0
    · simp [hneg] at h
    · rw [if_neg hneg] at h
      cases h
      rcases jsIndexOfFrom_spec v TRAIT_NAMES 0 with h' | ⟨k, hk, hget⟩
      · exact absurd (by rw [jsIndexOf, h']; decide) hneg
      · refine ⟨k, ?_, hget, rfl⟩
        simp only [jsIndexOf, hk]
        norm_num

theorem readTraitFromSelect_not_mem (v : String) (hv : v ∉ TRAIT_NAMES) :
    readTraitFromSelect v = none := by
  unfold readTraitFromSelect
  by_cases h : v = ""
  · simp [h]
  · rw [if_neg h]
    have : jsIndexOf TRAIT_NAMES v = -1 := jsIndexOfFrom_not_mem v TRAIT_NAMES 0 hv
    simp [this]

theorem parseApplyPayload_ok_ne_nil (fb : String) (payload : Option ApplyPayload)
    (bs : List ℕ) (hint : String) :
    parseApplyPayload fb payload = .ok (bs, hint) → bs.length ≠ 0 := by
  cases payload with
  | none => intro h; cases h
  | some p =>
    obtain ⟨ub, fh⟩ := p
    cases ub with
    | none => intro h; simp [parseApplyPayload] at h
    | some bs' =>
      intro h
      simp only [parseApplyPayload] at h
      by_cases hb : bs'.length = 0
      · rw [if_pos hb] at h; cases h
      · rw [if_neg hb] at h
        simp only [Except.ok.injEq, Prod.mk.injEq] at h
        exact h.1 ▸ hb

/-! ## Claim theorems -/

/-- C6: for every `game_time` representable in the save format (a
nonnegative integer tick count below `2^32`), `elapsedGameYears` equals
the mathematical floor of `game_time / 315360000`, and the result is
integer-exact: for any value `r` that IEEE-754 round-to-nearest double
division can return for `game_time / 315360000` (the exact quotient when
it is exactly representable, which holds whenever it is an integer in
this range, and otherwise a value within `2^-30`, far above the true
half-ulp bound for quotients below `2^4`), `Math.floor` of `r` equals
that same integer floor. -/
theorem c6_elapsed_years_exact_floor (n : ℤ) (r : ℚ)
    (h0 : 0 ≤ n) (hrep : n < 2 ^ 32)
    (hexact : (315360000 : ℤ) ∣ n → r = (n : ℚ) / 315360000)
    (happrox : ¬ (315360000 : ℤ) ∣ n → |r - (n : ℚ) / 315360000| ≤ 1 / 2 ^ 30) :
    elapsedGameYears (JsNum.int n) = ⌊(n : ℚ) / 315360000⌋ ∧
    (0 < n → ⌊r⌋ = elapsedGameYears (JsNum.int n)) := by
  have hfloor : ⌊(n : ℚ) / 315360000⌋ = n / 315360000 := by
    have := Rat.floor_intCast_div_natCast n 315360000
    push_cast at this
    exact this
  have helapsed : ∀ hn : ¬ n ≤ 0, elapsedGameYears (JsNum.int n) = n / 315360000 := by
    intro hn
    simp only [elapsedGameYears, GAME_TIME_TICKS_PER_YEAR, if_neg hn]
  constructor
  · by_cases hn : n ≤ 0
    · have hz : n = 0 := le_antisymm hn h0
      subst hz
      simp [elapsedGameYears]
    · rw [helapsed hn, hfloor]
  · intro hpos
    have hn : ¬ n ≤ 0 := not_le.mpr hpos
    rw [helapsed hn]
    by_cases hd : (315360000 : ℤ) ∣ n
    · rw [hexact hd, hfloor]
    · set q : ℤ := n / 315360000 with hq
      set m : ℤ := n % 315360000 with hm
      have hqm : 315360000 * q + m = n := Int.ediv_add_emod n 315360000
      have hm0 : 0 ≤ m := Int.emod_nonneg n (by norm_num)
      have hmlt : m < 315360000 := Int.emod_lt_of_pos n (by norm_num)
      have hm1 : 1 ≤ m := by
        rcases lt_or_eq_of_le hm0 with h | h
        · omega
        · exfalso
          exact hd (Int.dvd_of_emod_eq_zero h.symm)
      have hcast : (n : ℚ) = 315360000 * (q : ℚ) + (m : ℚ) := by
        exact_mod_cast congrArg (fun z : ℤ => (z : ℚ)) hqm.symm
      have hdiv : (n : ℚ) / 315360000 = (q : ℚ) + (m : ℚ) / 315360000 := by
        rw [hcast]; ring
      have habs := abs_le.mp (happrox hd)
      have hm1q : (1 : ℚ) ≤ (m : ℚ) := by exact_mod_cast hm1
      have hmltq : (m : ℚ) ≤ 315360000 - 1 := by
        have : m ≤ 315360000 - 1 := by omega
        exact_mod_cast this
      refine Int.floor_eq_iff.mpr ⟨?_, ?_⟩
      · rw [hdiv] at habs
        have h1 : (m : ℚ) / 315360000 ≥ 1 / 315360000 := by linarith
        have h2 : r - ((q : ℚ) + (m : ℚ) / 315360000) ≥ -(1 / 2 ^ 30) := habs.1
        have : (1 : ℚ) / 315360000 - 1 / 2 ^ 30 ≥ 0 := by norm_num
        linarith
      · rw [hdiv] at habs
        have h1 : (m : ℚ) / 315360000 ≤ 1 - 1 / 315360000 := by linarith
        have h2 : r - ((q : ℚ) + (m : ℚ) / 315360000) ≤ 1 / 2 ^ 30 := habs.2
        have : (1 : ℚ) / 2 ^ 30 < 1 / 315360000 := by norm_num
        linarith

/-- Witness for C6 at the concrete tick count 315360001 (one tick past a
year boundary, not divisible by the ticks-per-year constant), with `r`
the exact rational quotient (within the allowed envelope). -/
theorem c6_witness :
    elapsedGameYears (JsNum.int 315360001) = ⌊(315360001 : ℚ) / 315360000⌋ ∧
    (0 < (315360001 : ℤ) →
      ⌊(315360001 : ℚ) / 315360000⌋ = elapsedGameYears (JsNum.int 315360001)) :=
  c6_elapsed_years_exact_floor 315360001 ((315360001 : ℚ) / 315360000)
    (by norm_num) (by norm_num)
    (fun h => absurd h (by decide))
    (fun _ => by simp)

/-- C1: when the stored age total was produced by the forward formula
`total = base + bonus + elapsedGameYears(game_time)` with integer `base`
and `bonus` and nonnegative `game_time`, `baseAgeFromJson` recovers
exactly `base`, and re-running the age block of `syncFormToJson` with
that base (any form string parsing to it) reproduces the stored total
and leaves the bonus unchanged. -/
theorem c1_base_age_roundtrip (form : Form) (json : SaveJson) (st : StatEntry)
    (base bonus gt : ℤ)
    (hfind : findAgeStat json.stats = some st)
    (hbonus : st.bonus = JsNum.int bonus)
    (hgt : json.game_time = JsNum.int gt) (hgt0 : 0 ≤ gt)
    (htotal : st.total = JsNum.int (base + bonus + elapsedGameYears (JsNum.int gt)))
    (hform : numOrD (jsParseInt form.baseAge) 0 = base) :
    baseAgeFromJson json = some base ∧
    ∃ st', findAgeStat (syncFormToJson form json).stats = some st' ∧
      st'.base = JsNum.int base ∧ st'.bonus = st.bonus ∧ st'.total = st.total := by
  constructor
  · unfold baseAgeFromJson
    rw [hfind]
    dsimp only
    rw [htotal, hbonus, hgt, numOrD_int_zero, numOrD_int_zero]
    congr 1
    ring
  · have hsync : (syncFormToJson form json).stats
        = applyAgeEdit form.baseAge json.game_time json.stats := rfl
    unfold applyAgeEdit at hsync
    have hp : ∀ a : StatEntry, (a.index == JsNum.int STAT_AGE_INDEX) = true →
        ((({ a with
              base := JsNum.int (numOrD (jsParseInt form.baseAge) 0)
              total := JsNum.int (numOrD (jsParseInt form.baseAge) 0 + numOrD a.bonus 0
                + elapsedGameYears json.game_time) } : StatEntry)).index
          == JsNum.int STAT_AGE_INDEX) = true := by
      intro a ha
      exact ha
    have hfound := modifyFirst_find?
      (fun s : StatEntry => s.index == JsNum.int STAT_AGE_INDEX) _ hp json.stats st hfind
    refine ⟨{ st with
        base := JsNum.int (numOrD (jsParseInt form.baseAge) 0)
        total := JsNum.int (numOrD (jsParseInt form.baseAge) 0 + numOrD st.bonus 0
          + elapsedGameYears json.game_time) }, ?_, ?_, ?_, ?_⟩
    · rw [hsync]
      unfold findAgeStat
      exact hfound
    · rw [hform]
    · rfl
    · simp only [hbonus, hgt, numOrD_int_zero, hform]
      rw [htotal]

/-- Witness for C1: a concrete save whose age stat total 31 was produced
from base 25, bonus 4 and two full game years of ticks, with the form
base-age field containing the string "25". -/
theorem c1_witness :
    baseAgeFromJson
        { game := "Fallout1", name := "", description := "", gender := "Male",
          level := JsNum.int 1, xp := JsNum.int 0, skill_points := JsNum.int 0,
          hp := JsNum.int 30, karma := JsNum.int 0, reputation := JsNum.int 0,
          game_time := JsNum.int 630720000, special := [], stats :=
            [{ index := JsNum.int 33, base := JsNum.int 25, bonus := JsNum.int 4,
               total := JsNum.int 31 }],
          traits := [], perks := [], skills := [], inventory := [] } = some 25 ∧
    ∃ st', findAgeStat (syncFormToJson
        { name := "", description := "", gender := "Male", level := "", xp := "",
          skillPoints := "", hp := "", karma := "", reputation := "", baseAge := "25",
          trait0 := "", trait1 := "", specialInputs := [], skillInputs := [],
          perkRows := [], invRows := [] }
        { game := "Fallout1", name := "", description := "", gender := "Male",
          level := JsNum.int 1, xp := JsNum.int 0, skill_points := JsNum.int 0,
          hp := JsNum.int 30, karma := JsNum.int 0, reputation := JsNum.int 0,
          game_time := JsNum.int 630720000, special := [], stats :=
            [{ index := JsNum.int 33, base := JsNum.int 25, bonus := JsNum.int 4,
               total := JsNum.int 31 }],
          traits := [], perks := [], skills := [], inventory := [] }).stats = some st' ∧
      st'.base = JsNum.int 25 ∧ st'.bonus = JsNum.int 4 ∧ st'.total = JsNum.int 31 :=
  c1_base_age_roundtrip _ _
    { index := JsNum.int 33, base := JsNum.int 25, bonus := JsNum.int 4,
      total := JsNum.int 31 }
    25 4 630720000 (by decide) (by decide) (by decide) (by decide) (by decide) (by decide)

/-- C5: after every form-to-JSON sync the traits sequence has at most 2
entries, every entry's index is a valid position into the 16-entry
`TRAIT_NAMES` table naming that entry; `readTraitFromSelect` returns an
entry only when the selected name occurs in `TRAIT_NAMES` (with index
equal to its position), and an empty or unrecognized selection yields
no entry. -/
theorem c5_trait_slots (form : Form) (json : SaveJson) :
    (syncFormToJson form json).traits.length ≤ 2 ∧
    (∀ t ∈ (syncFormToJson form json).traits,
      ∃ k : ℕ, t.index = JsNum.int k ∧ k < 16 ∧ TRAIT_NAMES.get? k = some t.name) ∧
    (∀ v t, readTraitFromSelect v = some t →
      ∃ k : ℕ, t.index = JsNum.int k ∧ TRAIT_NAMES.get? k = some v ∧ t.name = v) ∧
    (∀ v, v ∉ TRAIT_NAMES → readTraitFromSelect v = none) := by
  have hspec : ∀ v t, readTraitFromSelect v = some t →
      ∃ k : ℕ, t.index = JsNum.int k ∧ TRAIT_NAMES.get? k = some v ∧ t.name = v :=
    readTraitFromSelect_spec
  have hsync : (syncFormToJson form json).traits = syncTraits form.trait0 form.trait1 := rfl
  refine ⟨?_, ?_, hspec, readTraitFromSelect_not_mem⟩
  · rw [hsync]
    unfold syncTraits
    cases readTraitFromSelect form.trait0 <;> cases readTraitFromSelect form.trait1 <;> simp
  · intro t ht
    rw [hsync] at ht
    unfold syncTraits at ht
    have hmem : readTraitFromSelect form.trait0 = some t ∨
        readTraitFromSelect form.trait1 = some t := by
      rcases List.mem_append.mp ht with h | h
      · left
        cases h0 : readTraitFromSelect form.trait0 with
        | none => rw [h0] at h; simp at h
        | some t' => rw [h0] at h; simp at h; rw [h]
      · right
        cases h1 : readTraitFromSelect form.trait1 with
        | none => rw [h1] at h; simp at h
        | some t' => rw [h1] at h; simp at h; rw [h]
    have hlen : TRAIT_NAMES.length = 16 := by decide
    rcases hmem with h | h
    · obtain ⟨k, hk, hget, hname⟩ := hspec _ _ h
      refine ⟨k, hk, ?_, by rw [hname]; exact hget⟩
      have := (List.get?_eq_some.mp hget).1
      omega
    · obtain ⟨k, hk, hget, hname⟩ := hspec _ _ h
      refine ⟨k, hk, ?_, by rw [hname]; exact hget⟩
      have := (List.get?_eq_some.mp hget).1
      omega

/-- Witness for C5 at a concrete form selecting the traits "Bruiser" and
"Gifted". -/
theorem c5_witness :
    (syncFormToJson
        { name := "", description := "", gender := "Male", level := "", xp := "",
          skillPoints := "", hp := "", karma := "", reputation := "", baseAge := "",
          trait0 := "Bruiser", trait1 := "Gifted", specialInputs := [],
          skillInputs := [], perkRows := [], invRows := [] }
        { game := "Fallout1", name := "", description := "", gender := "Male",
          level := JsNum.int 1, xp := JsNum.int 0, skill_points := JsNum.int 0,
          hp := JsNum.int 30, karma := JsNum.int 0, reputation := JsNum.int 0,
          game_time := JsNum.int 0, special := [], stats := [], traits := [],
          perks := [], skills := [], inventory := [] }).traits.length ≤ 2 ∧
    (∃ k : ℕ, (JsNum.int 1 = JsNum.int k ∧ TRAIT_NAMES.get? k = some "Bruiser") ∧ k < 16) := by
  constructor
  · exact (c5_trait_slots _ _).1
  · obtain ⟨k, hk, hget, _⟩ := (c5_trait_slots
      { name := "", description := "", gender := "Male", level := "", xp := "",
        skillPoints := "", hp := "", karma := "", reputation := "", baseAge := "",
        trait0 := "Bruiser", trait1 := "Gifted", specialInputs := [],
        skillInputs := [], perkRows := [], invRows := [] }
      { game := "Fallout1", name := "", description := "", gender := "Male",
        level := JsNum.int 1, xp := JsNum.int 0, skill_points := JsNum.int 0,
        hp := JsNum.int 30, karma := JsNum.int 0, reputation := JsNum.int 0,
        game_time := JsNum.int 0, special := [], stats := [], traits := [],
        perks := [], skills := [], inventory := [] }).2.2.1 "Bruiser"
      { index := JsNum.int 1, name := "Bruiser" } (by decide)
    refine ⟨k, ⟨hk, hget⟩, ?_⟩
    have := (List.get?_eq_some.mp hget).1
    have hlen : TRAIT_NAMES.length = 16 := by decide
    omega

/-- A form with every field empty, as after a fresh page load. -/
def emptyForm : Form :=
  { name := "", description := "", gender := "Male", level := "", xp := "",
    skillPoints := "", hp := "", karma := "", reputation := "", baseAge := "",
    trait0 := "", trait1 := "", specialInputs := [], skillInputs := [],
    perkRows := [], invRows := [] }

/-- A minimal decoded Fallout 1 save model used by the concrete
counterexamples. -/
def baseJson : SaveJson :=
  { game := "Fallout1", name := "", description := "", gender := "Male",
    level := JsNum.int 1, xp := JsNum.int 0, skill_points := JsNum.int 0,
    hp := JsNum.int 30, karma := JsNum.int 0, reputation := JsNum.int 0,
    game_time := JsNum.int 0, special := [], stats := [], traits := [],
    perks := [], skills := [], inventory := [] }

/-- The save of the C2 counterexample: one SPECIAL entry with base 5,
bonus 0, total 5. -/
def c2Json : SaveJson :=
  { baseJson with
      special := [{ base := JsNum.int 5, bonus := JsNum.int 0, total := JsNum.int 5 }] }

/-- The form of the C2 counterexample: the user typed 6 into the first
SPECIAL base input. -/
def c2Form : Form :=
  { emptyForm with specialInputs := [{ index := "0", value := "6" }] }

/-- C2 counterexample: editing the first SPECIAL base from 5 to 6 and
syncing leaves `total = 5` and `bonus = 0` while `base = 6`, so the
synced entry violates `total == base + bonus`. -/
theorem c2_counterexample :
    (syncFormToJson c2Form c2Json).special
        = [{ base := JsNum.int 6, bonus := JsNum.int 0, total := JsNum.int 5 }] ∧
    ¬ (∀ e ∈ (syncFormToJson c2Form c2Json).special,
        ∃ b β : ℤ, e.base = JsNum.int b ∧ e.bonus = JsNum.int β ∧
          e.total = JsNum.int (b + β)) := by
  have heval : (syncFormToJson c2Form c2Json).special
      = [{ base := JsNum.int 6, bonus := JsNum.int 0, total := JsNum.int 5 }] := by decide
  refine ⟨heval, ?_⟩
  intro hall
  obtain ⟨b, β, hb, hβ, ht⟩ := hall
    { base := JsNum.int 6, bonus := JsNum.int 0, total := JsNum.int 5 }
    (by rw [heval]; exact List.mem_singleton.mpr rfl)
  injection hb with hb'
  injection hβ with hβ'
  injection ht with ht'
  omega

/-- C2 amended: `syncFormToJson` rewrites only the `base` of each
SPECIAL entry; both `bonus` and `total` are left exactly as decoded
(`total` is not recomputed), so `total == base + bonus` survives the
sync only when the newly parsed base equals the stored total minus
bonus. -/
theorem c2_amended_sync_preserves_bonus_total (form : Form) (json : SaveJson) (j : ℕ) :
    (((syncFormToJson form json).special)[j]?).map SpecialEntry.bonus
        = (json.special[j]?).map SpecialEntry.bonus ∧
    (((syncFormToJson form json).special)[j]?).map SpecialEntry.total
        = (json.special[j]?).map SpecialEntry.total := by
  have hsync : (syncFormToJson form json).special
      = form.specialInputs.foldl applySpecialInput json.special := rfl
  rw [hsync]
  exact ⟨foldl_applySpecialInput_getElem?_bonus _ _ _,
    foldl_applySpecialInput_getElem?_total _ _ _⟩

/-- The form of the C3 counterexample: the add-perk button clicked twice
starting from an empty form. -/
def c3Form : Form := addPerkClickForm (addPerkClickForm emptyForm)

/-- C3 counterexample: two add-perk clicks followed by the sync produce
two `json.perks` entries both with index 0 — the indices are not
pairwise distinct, so re-adding an index duplicates instead of updating
the rank. -/
theorem c3_counterexample :
    (syncFormToJson c3Form baseJson).perks.map PerkEntry.index
        = [JsNum.int 0, JsNum.int 0] ∧
    ¬ ((syncFormToJson c3Form baseJson).perks.map PerkEntry.index).Nodup := by
  constructor
  · decide
  · intro h
    have heval : (syncFormToJson c3Form baseJson).perks.map PerkEntry.index
        = [JsNum.int 0, JsNum.int 0] := by decide
    rw [heval] at h
    simp at h

set_option maxRecDepth 8192 in
/-- C3 amended: the add-perk button always appends a fresh row (first
perk, rank 1) and `syncFormToJson` emits one `json.perks` entry per form
row in order, performing no deduplication, so the indices in
`json.perks` need not be pairwise distinct. -/
theorem c3_amended_perks_append_no_dedup (form : Form) (json : SaveJson) :
    (syncFormToJson (addPerkClickForm form) json).perks
      = (syncFormToJson form json).perks
          ++ [{ index := JsNum.int 0, name := "Awareness", rank := JsNum.int 1 }] := by
  have h1 : (syncFormToJson (addPerkClickForm form) json).perks
      = (form.perkRows ++ [({ nameSel := "0", rank := "1" } : PerkRow)]).map
          (mkPerkEntry (perkNamesForGame json)) := rfl
  have h2 : (syncFormToJson form json).perks
      = form.perkRows.map (mkPerkEntry (perkNamesForGame json)) := rfl
  rw [h1, h2, List.map_append]
  congr 1
  have hperk : mkPerkEntry (perkNamesForGame json) { nameSel := "0", rank := "1" }
      = { index := JsNum.int 0, name := "Awareness", rank := JsNum.int 1 } := by
    unfold perkNamesForGame
    by_cases hg : json.game = "Fallout2"
    · rw [if_pos hg]; decide
    · rw [if_neg hg]; decide
  rw [List.map_cons, List.map_nil, hperk]

/-- C4 counterexample: with an empty decoded inventory (so PID 0 is
absent from the save), one add-inventory click followed by the sync
creates a brand-new `json.inventory` line with PID 0. -/
theorem c4_counterexample :
    baseJson.inventory = [] ∧
    (syncFormToJson (addInventoryClickForm emptyForm) baseJson).inventory
        = [{ quantity := JsNum.int 1, pid := JsNum.int 0 }] ∧
    ¬ (∀ e ∈ (syncFormToJson (addInventoryClickForm emptyForm) baseJson).inventory,
        ∃ e0 ∈ baseJson.inventory, e0.pid = e.pid) := by
  refine ⟨by decide, by decide, ?_⟩
  intro hall
  obtain ⟨e0, he0, _⟩ := hall { quantity := JsNum.int 1, pid := JsNum.int 0 } (by decide)
  have : baseJson.inventory = [] := by decide
  rw [this] at he0
  simp at he0

/-- C4 amended: the add-inventory button always appends a fresh row with
quantity 1 and PID 0 regardless of which PIDs exist in the save, and
`syncFormToJson` rebuilds `json.inventory` with one line per form row
without merging duplicates, so the edit surface can introduce a line
whose PID is absent from the save and PIDs need not be unique. -/
theorem c4_amended_inventory_append_no_merge (form : Form) (json : SaveJson) :
    (syncFormToJson (addInventoryClickForm form) json).inventory
      = (syncFormToJson form json).inventory
          ++ [{ quantity := JsNum.int 1, pid := JsNum.int 0 }] := by
  have h1 : (syncFormToJson (addInventoryClickForm form) json).inventory
      = (form.invRows ++ [({ quantity := "1", pid := "0" } : InvRow)]).map mkInvEntry := rfl
  have h2 : (syncFormToJson form json).inventory = form.invRows.map mkInvEntry := rfl
  rw [h1, h2, List.map_append, List.map_cons, List.map_nil]
  congr 1

/-- C7: a file larger than 16 MiB is rejected by `loadSaveFile` before
any decode: the editor state is reset (byte buffers cleared, all
edit/apply/download actions disabled), an error status is reported, and
the WASM decode function is never invoked (the returned flag records
whether it was). -/
theorem c7_size_cap_atomic (decode : List ℕ → Except String (String × SaveJson))
    (st : EditorState) (f : JsFile)
    (hready : st.ready = true) (hinit : st.initError = none)
    (hsize : f.size > 16 * 1024 * 1024) :
    (loadSaveFile decode st (some f)).2 = false ∧
    (loadSaveFile decode st (some f)).1.originalBytes = none ∧
    (loadSaveFile decode st (some f)).1.updatedBytes = none ∧
    (loadSaveFile decode st (some f)).1.copyEnabled = false ∧
    (loadSaveFile decode st (some f)).1.formatEnabled = false ∧
    (loadSaveFile decode st (some f)).1.applyEnabled = false ∧
    (loadSaveFile decode st (some f)).1.downloadEnabled = false ∧
    (loadSaveFile decode st (some f)).1.statusKind = "error" := by
  have hsize' : f.size > MAX_UPLOAD_BYTES := by
    simpa [MAX_UPLOAD_BYTES] using hsize
  have hstep : loadSaveFile decode st (some f)
      = (setStatus (resetEditor st)
          "File is too large. Maximum supported size is 16 MiB." "error", false) := by
    unfold loadSaveFile
    rw [hinit]
    dsimp only
    rw [hready]
    rw [if_neg (by decide)]
    rw [if_pos hsize']
  rw [hstep]
  exact ⟨rfl, rfl, rfl, rfl, rfl, rfl, rfl, rfl⟩

/-- A minimal ready editor state (WASM loaded, nothing decoded yet). -/
def readyState : EditorState :=
  { originalBytes := none, updatedBytes := none, filenameBase := "save",
    outputFilename := "SAVE_edited.DAT", ready := true, initError := none,
    currentJson := none, jsonText := "", copyEnabled := false, formatEnabled := false,
    applyEnabled := false, downloadEnabled := false, formVisible := false,
    status := "", statusKind := "info" }

/-- A decode stub that always fails (never reached in the witnesses that
use it). -/
def trivialDecode : List ℕ → Except String (String × SaveJson) :=
  fun _ => Except.error "bad"

/-- A file one byte over the 16 MiB cap. -/
def bigFile : JsFile :=
  { name := "big.dat", bytes := List.replicate (16 * 1024 * 1024 + 1) 0 }

/-- Witness for C7: the oversized concrete file is rejected without the
decode stub ever being invoked. -/
theorem c7_witness : (loadSaveFile trivialDecode readyState (some bigFile)).2 = false :=
  (c7_size_cap_atomic trivialDecode readyState bigFile rfl rfl
    (by
      have hlen : bigFile.bytes.length = 16 * 1024 * 1024 + 1 := by
        rw [show bigFile.bytes = List.replicate (16 * 1024 * 1024 + 1) 0 from rfl,
          List.length_replicate]
      show bigFile.bytes.length > 16 * 1024 * 1024
      omega)).1

/-- C8: on a successful load, the suggested output filename is
`normalizeFilename(name) ++ "_edited.SAVE.DAT"`; `normalizeFilename`
always yields a non-empty string over `[a-zA-Z0-9_-]`; and
`parseApplyPayload` falls back to that same derived name whenever the
WASM payload carries no non-empty `filename_hint` string. -/
theorem c8_filename_hint_derivation (name : String)
    (payload : ApplyPayload) (bs : List ℕ)
    (hbs : payload.updated_bytes = some bs) (hne : bs.length ≠ 0)
    (hhint : payload.filename_hint = none ∨ payload.filename_hint = some "")
    (decode : List ℕ → Except String (String × SaveJson))
    (st : EditorState) (f : JsFile) (rendered : String) (parsed : SaveJson)
    (hready : st.ready = true) (hinit : st.initError = none)
    (hsize : ¬ f.size > MAX_UPLOAD_BYTES)
    (hdec : decode f.bytes = Except.ok (rendered, parsed)) :
    (loadSaveFile decode st (some f)).1.filenameBase = normalizeFilename f.name ∧
    (loadSaveFile decode st (some f)).1.outputFilename
        = normalizeFilename f.name ++ "_edited.SAVE.DAT" ∧
    normalizeFilename name ≠ "" ∧
    (∀ c ∈ (normalizeFilename name).data, isFilenameChar c = true) ∧
    parseApplyPayload (normalizeFilename name) (some payload)
        = Except.ok (bs, normalizeFilename name ++ "_edited.SAVE.DAT") := by
  have hstep : loadSaveFile decode st (some f)
      = ({ st with
            originalBytes := some f.bytes
            updatedBytes := none
            filenameBase := normalizeFilename f.name
            outputFilename := normalizeFilename f.name ++ "_edited.SAVE.DAT"
            jsonText := rendered
            copyEnabled := true
            formatEnabled := true
            applyEnabled := true
            downloadEnabled := false
            currentJson := some parsed
            formVisible := true
            status := "Loaded " ++ f.name ++ ". Edit fields or JSON and apply when ready."
            statusKind := "ok" }, true) := by
    unfold loadSaveFile
    rw [hinit]
    dsimp only
    rw [hready]
    rw [if_neg (by decide)]
    rw [if_neg hsize, hdec]
  refine ⟨by rw [hstep], by rw [hstep], ?_, ?_, ?_⟩
  · intro h
    exact normalizeFilenameCore_ne_nil name.data (congrArg String.data h)
  · exact mem_normalizeFilenameCore name.data
  · obtain ⟨ub, fh⟩ := payload
    simp only at hbs
    subst hbs
    simp only [parseApplyPayload]
    rw [if_neg hne]
    rcases hhint with h | h <;> simp only at h <;> subst h
    · rfl
    · rfl

/-- Witness for C8: the input name "My Save.DAT" normalizes to
"My_Save", and a payload with bytes but no filename hint falls back to
the derived name. -/
theorem c8_witness :
    parseApplyPayload (normalizeFilename "My Save.DAT")
        (some { updated_bytes := some [1, 2], filename_hint := none })
      = Except.ok ([1, 2], normalizeFilename "My Save.DAT" ++ "_edited.SAVE.DAT") :=
  (c8_filename_hint_derivation "My Save.DAT"
    { updated_bytes := some [1, 2], filename_hint := none } [1, 2] rfl (by decide)
    (Or.inl rfl) (fun _ => Except.ok ("x", baseJson)) readyState
    { name := "My Save.DAT", bytes := [0] } "x" baseJson
    rfl rfl (by decide) rfl).2.2.2.2

/-- C9: the invariant "download is enabled only when `updatedBytes` is a
non-empty buffer" holds after `resetEditor`, after every path of
`loadSaveFile` and of `applyJsonAndBuildSave`, and `downloadEditedSave`
emits bytes only when they are present and non-empty. -/
theorem c9_download_state_invariant (st : EditorState)
    (decode : List ℕ → Except String (String × SaveJson))
    (applyFn : List ℕ → String → Except String (Option ApplyPayload))
    (file : Option JsFile)
    (hinv : downloadInv st) :
    downloadInv (resetEditor st) ∧
    downloadInv (loadSaveFile decode st file).1 ∧
    downloadInv (applyJsonAndBuildSave applyFn st) ∧
    (∀ bs fn, downloadEditedSave st = some (bs, fn) →
      st.updatedBytes = some bs ∧ bs.length ≠ 0) := by
  refine ⟨?_, ?_, ?_, ?_⟩
  · intro h
    simp [resetEditor] at h
  · unfold loadSaveFile
    cases hi : st.initError with
    | some e => exact hinv
    | none =>
      dsimp only
      by_cases hr : st.ready = false
      · rw [if_pos hr]; exact hinv
      · rw [if_neg hr]
        cases file with
        | none => exact hinv
        | some f =>
          dsimp only
          by_cases hs : f.size > MAX_UPLOAD_BYTES
          · rw [if_pos hs]
            intro h
            simp [setStatus, resetEditor] at h
          · rw [if_neg hs]
            cases hd : decode f.bytes with
            | error e =>
              intro h
              simp [setStatus, resetEditor] at h
            | ok pr =>
              obtain ⟨rj, pj⟩ := pr
              intro h
              simp at h
  · unfold applyJsonAndBuildSave
    cases ho : st.originalBytes with
    | none => exact hinv
    | some ob =>
      dsimp only
      by_cases hlen : ob.length = 0
      · rw [if_pos hlen]; exact hinv
      · rw [if_neg hlen]
        by_cases he : st.jsonText.trim = ""
        · rw [if_pos he]; exact hinv
        · rw [if_neg he]
          cases ha : applyFn ob st.jsonText.trim with
          | error e =>
            dsimp only
            intro h
            simp [setStatus] at h
          | ok payload =>
            dsimp only
            cases hp : parseApplyPayload st.filenameBase payload with
            | error e =>
              dsimp only
              intro h
              simp [setStatus] at h
            | ok pr =>
              obtain ⟨bs, hint⟩ := pr
              dsimp only
              intro _
              exact ⟨bs, rfl, parseApplyPayload_ok_ne_nil _ _ _ _ hp⟩
  · intro bs fn h
    unfold downloadEditedSave at h
    cases hu : st.updatedBytes with
    | none => rw [hu] at h; cases h
    | some bs' =>
      rw [hu] at h
      dsimp only at h
      by_cases hb : bs'.length = 0
      · rw [if_pos hb] at h; cases h
      · rw [if_neg hb] at h
        simp only [Option.some.injEq, Prod.mk.injEq] at h
        obtain ⟨h1, _⟩ := h
        subst h1
        exact ⟨rfl, hb⟩

/-- Witness for C9 at the concrete fresh editor state. -/
theorem c9_witness : downloadInv (resetEditor readyState) :=
  (c9_download_state_invariant readyState trivialDecode (fun _ _ => Except.error "no")
    none (fun h => absurd h (by decide))).1

/-- C10: `syncFormToJson` is total on arbitrary form strings — every
numeric field it writes goes through `parseInt` with a falsy-fallback
default, so (provided the decoded model's in-place-updated collections
started NaN-free, as `JSON.parse` output always is) none of the listed
numeric fields is NaN after a sync, and an unparseable string produces
the documented default: 0 for level, xp, skill points, hp, karma,
reputation and base age; 1 for perk rank and inventory quantity; 0 for
inventory PID. -/
theorem c10_sync_numeric_totality (form : Form) (json : SaveJson)
    (hsp : ∀ e ∈ json.special, e.base ≠ JsNum.nan)
    (hsk : ∀ s ∈ json.skills, s.raw ≠ JsNum.nan) :
    (syncFormToJson form json).level ≠ JsNum.nan ∧
    (syncFormToJson form json).xp ≠ JsNum.nan ∧
    (syncFormToJson form json).skill_points ≠ JsNum.nan ∧
    (syncFormToJson form json).hp ≠ JsNum.nan ∧
    (syncFormToJson form json).karma ≠ JsNum.nan ∧
    (syncFormToJson form json).reputation ≠ JsNum.nan ∧
    (∀ st', findAgeStat (syncFormToJson form json).stats = some st' →
      st'.base ≠ JsNum.nan) ∧
    (∀ e ∈ (syncFormToJson form json).special, e.base ≠ JsNum.nan) ∧
    (∀ p ∈ (syncFormToJson form json).perks, p.rank ≠ JsNum.nan) ∧
    (∀ s ∈ (syncFormToJson form json).skills, s.raw ≠ JsNum.nan) ∧
    (∀ it ∈ (syncFormToJson form json).inventory,
      it.quantity ≠ JsNum.nan ∧ it.pid ≠ JsNum.nan) ∧
    (jsParseInt form.level = JsNum.nan → (syncFormToJson form json).level = JsNum.int 0) ∧
    (jsParseInt form.xp = JsNum.nan → (syncFormToJson form json).xp = JsNum.int 0) ∧
    (jsParseInt form.skillPoints = JsNum.nan →
      (syncFormToJson form json).skill_points = JsNum.int 0) ∧
    (jsParseInt form.hp = JsNum.nan → (syncFormToJson form json).hp = JsNum.int 0) ∧
    (jsParseInt form.karma = JsNum.nan → (syncFormToJson form json).karma = JsNum.int 0) ∧
    (jsParseInt form.reputation = JsNum.nan →
      (syncFormToJson form json).reputation = JsNum.int 0) ∧
    (∀ row : PerkRow, jsParseInt row.rank = JsNum.nan →
      (mkPerkEntry (perkNamesForGame json) row).rank = JsNum.int 1) ∧
    (∀ row : InvRow, jsParseInt row.quantity = JsNum.nan →
      (mkInvEntry row).quantity = JsNum.int 1) ∧
    (∀ row : InvRow, jsParseInt row.pid = JsNum.nan → (mkInvEntry row).pid = JsNum.int 0) := by
  refine ⟨?_, ?_, ?_, ?_, ?_, ?_, ?_, ?_, ?_, ?_, ?_, ?_, ?_, ?_, ?_, ?_, ?_, ?_, ?_, ?_⟩
  · intro h; cases h
  · intro h; cases h
  · intro h; cases h
  · intro h; cases h
  · intro h; cases h
  · intro h; cases h
  · intro st' hst'
    have hs : (syncFormToJson form json).stats
        = applyAgeEdit form.baseAge json.game_time json.stats := rfl
    rw [hs] at hst'
    unfold applyAgeEdit at hst'
    unfold findAgeStat at hst'
    cases hfd : List.find? (fun s : StatEntry => s.index == JsNum.int STAT_AGE_INDEX)
        json.stats with
    | none =>
      rw [modifyFirst_of_find?_none _ _ _ hfd, hfd] at hst'
      cases hst'
    | some a =>
      have hp : ∀ b : StatEntry, (b.index == JsNum.int STAT_AGE_INDEX) = true →
          ((({ b with
                base := JsNum.int (numOrD (jsParseInt form.baseAge) 0)
                total := JsNum.int (numOrD (jsParseInt form.baseAge) 0 + numOrD b.bonus 0
                  + elapsedGameYears json.game_time) } : StatEntry)).index
            == JsNum.int STAT_AGE_INDEX) = true := fun b hb => hb
      have hfd' := modifyFirst_find?
        (fun s : StatEntry => s.index == JsNum.int STAT_AGE_INDEX) _ hp json.stats a hfd
      rw [hfd'] at hst'
      injection hst' with h'
      rw [← h']
      intro hbad
      cases hbad
  · exact foldl_applySpecialInput_base_notNan form.specialInputs json.special hsp
  · intro p hp'
    have hs : (syncFormToJson form json).perks
        = form.perkRows.map (mkPerkEntry (perkNamesForGame json)) := rfl
    rw [hs] at hp'
    obtain ⟨row, _, hrow⟩ := List.mem_map.mp hp'
    rw [← hrow]
    intro hbad
    cases hbad
  · exact foldl_applySkillInput_raw_notNan form.skillInputs json.skills hsk
  · intro it hit
    have hs : (syncFormToJson form json).inventory = form.invRows.map mkInvEntry := rfl
    rw [hs] at hit
    obtain ⟨row, _, hrow⟩ := List.mem_map.mp hit
    rw [← hrow]
    constructor
    · intro hbad; cases hbad
    · intro hbad; cases hbad
  · intro h
    show JsNum.int (numOrD (jsParseInt form.level) 0) = JsNum.int 0
    rw [h]; rfl
  · intro h
    show JsNum.int (numOrD (jsParseInt form.xp) 0) = JsNum.int 0
    rw [h]; rfl
  · intro h
    show JsNum.int (numOrD (jsParseInt form.skillPoints) 0) = JsNum.int 0
    rw [h]; rfl
  · intro h
    show JsNum.int (numOrD (jsParseInt form.hp) 0) = JsNum.int 0
    rw [h]; rfl
  · intro h
    show JsNum.int (numOrD (jsParseInt form.karma) 0) = JsNum.int 0
    rw [h]; rfl
  · intro h
    show JsNum.int (numOrD (jsParseInt form.reputation) 0) = JsNum.int 0
    rw [h]; rfl
  · intro row h
    show JsNum.int (numOrD (jsParseInt row.rank) 1) = JsNum.int 1
    rw [h]; rfl
  · intro row h
    show JsNum.int (numOrD (jsParseInt row.quantity) 1) = JsNum.int 1
    rw [h]; rfl
  · intro row h
    show JsNum.int (numOrD (jsParseInt row.pid) 0) = JsNum.int 0
    rw [h]; rfl

/-- A form full of garbage text in every numeric field. -/
def junkForm : Form :=
  { name := "n", description := "d", gender := "Female", level := "abc", xp := "-",
    skillPoints := " 12x", hp := "", karma := "0", reputation := "99 red balloons",
    baseAge := "??", trait0 := "Bruiser", trait1 := "nope",
    specialInputs := [{ index := "0", value := "zz" }],
    skillInputs := [{ index := "3", value := "" }],
    perkRows := [{ nameSel := "5", rank := "x" }],
    invRows := [{ quantity := "", pid := "7" }] }

/-- Witness for C10 at a concrete garbage-filled form over the minimal
save. -/
theorem c10_witness : (syncFormToJson junkForm baseJson).level ≠ JsNum.nan :=
  (c10_sync_numeric_totality junkForm baseJson (by intro e he; simp [baseJson] at he)
    (by intro s hs; simp [baseJson] at hs)).1

end FalloutSE
